import Mathlib

/-!
Verification of the measurement-sequencing behaviour of the lab_control
repository against its design document.

The two measurement scripts `test09_interpad_cap.py` and
`test13_scan_cv_overnight.py` are embedded shallowly: every instrument call
made by `execute` becomes an event (`Cmd`), every `out.append(...)` becomes a
recorded row (`Item.row`), and a run is the list of items actually executed.
Instrument readings (floats returned by the hardware) are supplied by oracle
structures; an operator cancellation (`KeyboardInterrupt`) inside the
`try` block is modelled as cutting the try-block item list at an arbitrary
prefix, after which the `except` handler and the unconditional teardown run.
-/

/-- Arithmetic mean as computed by `numpy.mean`: sum divided by length. -/
noncomputable def npMean (l : List ℝ) : ℝ := l.sum / l.length

/-- Population variance as computed inside `numpy.std` (default `ddof = 0`):
the mean of the squared deviations from the mean. -/
noncomputable def npVar (l : List ℝ) : ℝ :=
  npMean (l.map (fun x => (x - npMean l) ^ 2))

/-- Standard deviation as computed by `numpy.std` (default `ddof = 0`):
the square root of the mean of the squared deviations. -/
noncomputable def npStd (l : List ℝ) : ℝ := Real.sqrt (npVar l)

/-- Arithmetic mean in the words of the design document. -/
noncomputable def arithmeticMean (l : List ℝ) : ℝ := l.sum / l.length

/-- Population standard deviation (divisor `n`, i.e. `ddof = 0`) in the words
of the design document. -/
noncomputable def populationStdDev (l : List ℝ) : ℝ :=
  Real.sqrt ((l.map (fun x => (x - arithmeticMean l) ^ 2)).sum / l.length)

theorem npMean_eq_arithmeticMean (l : List ℝ) : npMean l = arithmeticMean l := rfl

theorem npStd_eq_populationStdDev (l : List ℝ) : npStd l = populationStdDev l := by
  unfold npStd populationStdDev npVar npMean arithmeticMean
  rw [List.length_map]

theorem npMean_replicate (n : ℕ) (hn : n ≠ 0) (x : ℝ) :
    npMean (List.replicate n x) = x := by
  unfold npMean
  rw [List.sum_replicate, List.length_replicate, nsmul_eq_mul]
  field_simp

theorem npStd_replicate (n : ℕ) (hn : n ≠ 0) (x : ℝ) :
    npStd (List.replicate n x) = 0 := by
  unfold npStd npVar
  rw [npMean_replicate n hn x, List.map_replicate]
  simp [npMean_replicate n hn]

/-- One instrument command issued by a measurement script.  Each constructor
corresponds to one driver call appearing in `execute` (power supply, LCR
meter, switch card), plus `sleep` delays and the error-severity log line of
the cancellation handler.  Payloads are the exact nominal values sent. -/
inductive Cmd where
  | psReset : Cmd
  | setSourceVoltage : Cmd
  | setSenseCurrent : Cmd
  | setCurrentLimit : ℚ → Cmd
  | setVoltage : ℚ → Cmd
  | setNplc : ℚ → Cmd
  | setTerminalRear : Cmd
  | outputOn : Cmd
  | outputOff : Cmd
  | rampVoltage : ℚ → Cmd
  | sleep : ℚ → Cmd
  | lcrReset : Cmd
  | lcrSetVoltage : ℚ → Cmd
  | lcrSetFreq : ℚ → Cmd
  | lcrSetModeCPRP : Cmd
  | lcrSetModeRX : Cmd
  | lcrCheckFreq : Cmd
  | readCurrent : Cmd
  | readVoltage : Cmd
  | lcrMeasure : Cmd
  | swReboot : Cmd
  | swSetTypeCV : Cmd
  | swSetDispOff : Cmd
  | openChannel : ℕ → Cmd
  | logError : Cmd
  deriving DecidableEq

/-- One step of a run: either an instrument command or the recording
(`out.append`) of a data row. -/
inductive Item where
  | act : Cmd → Item
  | row : List ℝ → Item

/-- The commands of an item list, in order. -/
def cmdsOf (l : List Item) : List Cmd :=
  l.filterMap (fun it => match it with | .act c => some c | .row _ => none)

/-- The recorded rows of an item list, in order. -/
def rowsOf (l : List Item) : List (List ℝ) :=
  l.filterMap (fun it => match it with | .act _ => none | .row r => some r)

theorem cmdsOf_append (a b : List Item) : cmdsOf (a ++ b) = cmdsOf a ++ cmdsOf b :=
  List.filterMap_append _ _ _

theorem rowsOf_append (a b : List Item) : rowsOf (a ++ b) = rowsOf a ++ rowsOf b :=
  List.filterMap_append _ _ _

/-- Somewhere in the command list, a ramp of the output voltage to zero
occurs strictly before an output-off command. -/
def rampZeroThenOff (cs : List Cmd) : Prop :=
  ∃ pre mid post, cs = pre ++ [Cmd.rampVoltage 0] ++ mid ++ [Cmd.outputOff] ++ post

/-- Column extraction `np.array(out)[:, k]`.  Converting an empty Python list
gives a one-dimensional empty array, so two-index access raises `IndexError`;
a ragged list gives an object array which also cannot be indexed by column;
otherwise the column exists when `k` is within the row width. -/
def colE (out : List (List ℝ)) (k : ℕ) : Option (List ℝ) :=
  match out with
  | [] => none
  | r :: rs =>
    if rs.all (fun q => q.length == r.length) then
      if k < r.length then some ((r :: rs).map (fun q => q.getD k 0)) else none
    else none

namespace test09_interpad_cap

/-- Hardware readings of one `test09` run: measured voltage, total current and
measured LCR frequency at voltage-index `i`, frequency-index `j`, and the two
LCR readings (`cp`, `rp`) of repeat `k` at that point. -/
structure Oracle where
  vol : ℕ → ℕ → ℝ
  cur : ℕ → ℕ → ℝ
  freqM : ℕ → ℕ → ℝ
  cp : ℕ → ℕ → ℕ → ℝ
  rp : ℕ → ℕ → ℕ → ℝ

/-- The ten nominal LCR frequencies of the inner loop of `test09`. -/
def freqList : List ℚ :=
  [500, 1000, 2000, 3000, 5000, 10000, 20000, 50000, 100000, 1000000]

/-- The fixed repeat count of the aggregation loop `for i in range(5)`. -/
def samplesPerPoint : ℕ := 5

/-- The five `cp` readings taken at point `(i, j)`, in sampling order. -/
def cpSamples (o : Oracle) (i j : ℕ) : List ℝ :=
  (List.range samplesPerPoint).map (o.cp i j)

/-- The five `rp` readings taken at point `(i, j)`, in sampling order. -/
def rpSamples (o : Oracle) (i j : ℕ) : List ℝ :=
  (List.range samplesPerPoint).map (o.rp i j)

/-- The row `out.append([v, vol, freq, cp, cp_err, rp, rp_err, cur_tot])`
recorded at voltage-index `i`, frequency-index `j` for nominal voltage `v`. -/
noncomputable def rowAt (o : Oracle) (i j : ℕ) (v : ℚ) : List ℝ :=
  [(v : ℝ), o.vol i j, o.freqM i j,
   npMean (cpSamples o i j), npStd (cpSamples o i j),
   npMean (rpSamples o i j), npStd (rpSamples o i j),
   o.cur i j]

/-- The body of the inner frequency loop at one nominal frequency: set the
frequency, wait, query it, read current and voltage, take the five LCR
samples, wait, and record the aggregated row. -/
noncomputable def freqBlock (o : Oracle) (i j : ℕ) (v f : ℚ) : List Item :=
  [Item.act (Cmd.lcrSetFreq f), Item.act (Cmd.sleep 1),
   Item.act Cmd.lcrCheckFreq, Item.act Cmd.readCurrent, Item.act Cmd.readVoltage] ++
  List.replicate samplesPerPoint (Item.act Cmd.lcrMeasure) ++
  [Item.act (Cmd.sleep (1 / 1000)), Item.row (rowAt o i j v)]

/-- The inner frequency loop of `test09`, starting at frequency-index `j`. -/
noncomputable def freqLoop (o : Oracle) (i : ℕ) (v : ℚ) : ℕ → List ℚ → List Item
  | _, [] => []
  | j, f :: fs => freqBlock o i j v f ++ freqLoop o i v (j + 1) fs

/-- One iteration of the outer voltage loop: ramp to the nominal voltage,
wait the settling delay, then run the frequency loop. -/
noncomputable def pointItems (o : Oracle) (i : ℕ) (v : ℚ) : List Item :=
  [Item.act (Cmd.rampVoltage v), Item.act (Cmd.sleep 20)] ++ freqLoop o i v 0 freqList

/-- The outer voltage loop of `test09`, starting at voltage-index `i`. -/
noncomputable def sweepLoop (o : Oracle) : ℕ → List ℚ → List Item
  | _, [] => []
  | i, v :: vs => pointItems o i v ++ sweepLoop o (i + 1) vs

/-- Everything the `try` block of `test09.execute` would do for the sweep
list `L` if never interrupted. -/
noncomputable def tryItems (L : List ℚ) (o : Oracle) : List Item := sweepLoop o 0 L

/-- The instrument-configuration commands issued before the sweep. -/
def setupItems : List Item :=
  [Item.act Cmd.psReset, Item.act Cmd.setSourceVoltage, Item.act Cmd.setSenseCurrent,
   Item.act (Cmd.setCurrentLimit (1 / 2000)), Item.act (Cmd.setVoltage 0),
   Item.act Cmd.setTerminalRear, Item.act Cmd.outputOn,
   Item.act Cmd.lcrReset, Item.act (Cmd.lcrSetVoltage 1),
   Item.act (Cmd.lcrSetFreq 50000), Item.act Cmd.lcrSetModeCPRP]

/-- The `except KeyboardInterrupt` handler: ramp the supply to zero and log
the cancellation at error severity. -/
def handlerItems : List Item :=
  [Item.act (Cmd.rampVoltage 0), Item.act Cmd.logError]

/-- The unconditional teardown after the `try` statement: ramp to zero, wait
fifteen seconds, disable the output, reset the supply. -/
def teardownItems : List Item :=
  [Item.act (Cmd.rampVoltage 0), Item.act (Cmd.sleep 15),
   Item.act Cmd.outputOff, Item.act Cmd.psReset]

/-- The items executed by one run of `test09.execute`.  `cut = none` is a run
whose sweep completes normally; `cut = some n` is a run cancelled by a
`KeyboardInterrupt` after `n` steps of the `try` block, which the handler
catches before control reaches the teardown. -/
noncomputable def runItems (L : List ℚ) (o : Oracle) (cut : Option ℕ) : List Item :=
  setupItems ++
  (match cut with
   | none => tryItems L o
   | some n => (tryItems L o).take n ++ handlerItems) ++
  teardownItems

/-- The command trace of one run. -/
noncomputable def trace (L : List ℚ) (o : Oracle) (cut : Option ℕ) : List Cmd :=
  cmdsOf (runItems L o cut)

/-- The `out` list accumulated by one run. -/
noncomputable def out (L : List ℚ) (o : Oracle) (cut : Option ℕ) : List (List ℝ) :=
  rowsOf (runItems L o cut)

/-- The save-and-plot phase after teardown: `save_list` always succeeds, then
`print_graph` converts `out` to an array and extracts columns 1, 3 and 7. -/
def savePhase (o : List (List ℝ)) : Option Unit := do
  _ ← colE o 1
  _ ← colE o 3
  _ ← colE o 7
  pure ()

/-- Result of a whole run of `execute`: `none` means an uncaught exception in
the save-and-plot phase. -/
noncomputable def execute (L : List ℚ) (o : Oracle) (cut : Option ℕ) : Option Unit :=
  savePhase (out L o cut)

end test09_interpad_cap

namespace test13_scan_cv_overnight

/-- Hardware readings of one `test13` run, indexed by pass number `p` of the
overnight repeat loop, voltage-index `i`, channel-index `ci` and time-sample
index `k`: measured voltage, total current, the two LCR readings (`r`, `x`)
and the elapsed time `t` reported by the clock. -/
structure Oracle where
  vol : ℕ → ℕ → ℕ → ℕ → ℝ
  cur : ℕ → ℕ → ℕ → ℕ → ℝ
  r : ℕ → ℕ → ℕ → ℕ → ℝ
  x : ℕ → ℕ → ℕ → ℕ → ℝ
  t : ℕ → ℕ → ℕ → ℕ → ℝ

/-- The nominal LCR frequency `self.lcr_freq` fixed in `initialise`. -/
def lcrFreq : ℚ := 10000

/-- The capacitance computed from the reactance reading,
`(-10**12) / (2 * np.pi * self.lcr_freq * x)`. -/
noncomputable def capOf (x : ℝ) : ℝ :=
  (-(10 : ℝ) ^ (12 : ℕ)) / (2 * Real.pi * (lcrFreq : ℝ) * x)

/-- The row `out.append([v, vol, t, c, r, x, cap, cur_tot])` recorded at pass
`p`, voltage-index `i`, channel-index `ci`, time-sample `k`, for nominal
voltage `v` and channel `c`.  Note there is no averaging: each row stores one
raw reading. -/
noncomputable def rowAt (o : Oracle) (p i ci k : ℕ) (v : ℚ) (c : ℕ) : List ℝ :=
  [(v : ℝ), o.vol p i ci k, o.t p i ci k, (c : ℝ),
   o.r p i ci k, o.x p i ci k, capOf (o.x p i ci k), o.cur p i ci k]

/-- One iteration of the sixty-second sampling loop: read voltage and
current, take one LCR measurement, wait, and record the raw row. -/
noncomputable def timeBlock (o : Oracle) (p i ci k : ℕ) (v : ℚ) (c : ℕ) : List Item :=
  [Item.act Cmd.readVoltage, Item.act Cmd.readCurrent, Item.act Cmd.lcrMeasure,
   Item.act (Cmd.sleep 1), Item.row (rowAt o p i ci k v c)]

/-- The sixty-second sampling loop at one channel, starting at time-sample
index `k` with `m` iterations remaining; `m` is the number of iterations the
wall clock admits. -/
noncomputable def timeLoop (o : Oracle) (p i ci : ℕ) (v : ℚ) (c : ℕ) :
    ℕ → ℕ → List Item
  | _, 0 => []
  | k, m + 1 => timeBlock o p i ci k v c ++ timeLoop o p i ci v c (k + 1) m

/-- The channel loop of one voltage step, starting at channel-index `ci`.
`ic p i ci` is the number of time samples the clock admits at pass `p`,
voltage-index `i`, channel-index `ci`. -/
noncomputable def cellLoop (o : Oracle) (ic : ℕ → ℕ → ℕ → ℕ) (p i : ℕ) (v : ℚ) :
    ℕ → List ℕ → List Item
  | _, [] => []
  | ci, c :: cs =>
    Item.act (Cmd.openChannel c) :: timeLoop o p i ci v c 0 (ic p i ci) ++
    cellLoop o ic p i v (ci + 1) cs

/-- The voltage loop of one pass, starting at voltage-index `i`: ramp to the
nominal voltage, wait the settling delays, then loop over the channels. -/
noncomputable def voltLoop (o : Oracle) (ic : ℕ → ℕ → ℕ → ℕ) (C : List ℕ) (p : ℕ) :
    ℕ → List ℚ → List Item
  | _, [] => []
  | i, v :: vs =>
    [Item.act (Cmd.rampVoltage v), Item.act (Cmd.sleep 1),
     Item.act (Cmd.sleep (1 / 1000))] ++
    cellLoop o ic p i v 0 C ++ voltLoop o ic C p (i + 1) vs

/-- The twelve-hour repeat loop `while (time.time() - t0 < 12*3600)`,
starting at pass index `p` with `q` passes remaining; the total pass count is
the number of iterations the wall clock admits in twelve hours. -/
noncomputable def passLoop (o : Oracle) (ic : ℕ → ℕ → ℕ → ℕ) (V : List ℚ)
    (C : List ℕ) : ℕ → ℕ → List Item
  | _, 0 => []
  | p, q + 1 => voltLoop o ic C p 0 V ++ passLoop o ic V C (p + 1) q

/-- Everything the `try` block of `test13.execute` would do if never
interrupted, for `passes` iterations of the overnight loop over voltage list
`V` and cell list `C`. -/
noncomputable def tryItems (passes : ℕ) (V : List ℚ) (C : List ℕ)
    (ic : ℕ → ℕ → ℕ → ℕ) (o : Oracle) : List Item :=
  passLoop o ic V C 0 passes

/-- The instrument-configuration commands issued before the sweep. -/
def setupItems : List Item :=
  [Item.act Cmd.psReset, Item.act Cmd.setSourceVoltage, Item.act Cmd.setSenseCurrent,
   Item.act (Cmd.setCurrentLimit (1 / 2000)), Item.act (Cmd.setVoltage 0),
   Item.act (Cmd.setNplc 10), Item.act Cmd.setTerminalRear, Item.act Cmd.outputOn,
   Item.act Cmd.lcrReset, Item.act (Cmd.lcrSetVoltage 1),
   Item.act (Cmd.lcrSetFreq lcrFreq), Item.act Cmd.lcrSetModeRX,
   Item.act Cmd.swReboot, Item.act Cmd.swSetTypeCV, Item.act Cmd.swSetDispOff]

/-- The `except KeyboardInterrupt` handler: ramp the supply to zero and log
the cancellation at error severity. -/
def handlerItems : List Item :=
  [Item.act (Cmd.rampVoltage 0), Item.act Cmd.logError]

/-- The unconditional teardown after the `try` statement: ramp to zero,
disable the output, reset the supply. -/
def teardownItems : List Item :=
  [Item.act (Cmd.rampVoltage 0), Item.act Cmd.outputOff, Item.act Cmd.psReset]

/-- The items executed by one run of `test13.execute`; `cut` as in the
`test09` model. -/
noncomputable def runItems (passes : ℕ) (V : List ℚ) (C : List ℕ)
    (ic : ℕ → ℕ → ℕ → ℕ) (o : Oracle) (cut : Option ℕ) : List Item :=
  setupItems ++
  (match cut with
   | none => tryItems passes V C ic o
   | some n => (tryItems passes V C ic o).take n ++ handlerItems) ++
  teardownItems

/-- The command trace of one run. -/
noncomputable def trace (passes : ℕ) (V : List ℚ) (C : List ℕ)
    (ic : ℕ → ℕ → ℕ → ℕ) (o : Oracle) (cut : Option ℕ) : List Cmd :=
  cmdsOf (runItems passes V C ic o cut)

/-- The `out` list accumulated by one run. -/
noncomputable def out (passes : ℕ) (V : List ℚ) (C : List ℕ)
    (ic : ℕ → ℕ → ℕ → ℕ) (o : Oracle) (cut : Option ℕ) : List (List ℝ) :=
  rowsOf (runItems passes V C ic o cut)

/-- The save-and-plot phase of `test13`: `save_list` always succeeds, the
first two `print_graph` calls extract columns 2, 6 and 5 of `out`, and when
more than two cells were scanned two further plots are drawn from the rows
whose field 2 equals the derived channel number `ch`. -/
noncomputable def savePhase (C : List ℕ) (o : List (List ℝ)) : Option Unit := do
  _ ← colE o 2
  _ ← colE o 6
  _ ← colE o 5
  if 2 < C.length then
    let ch : ℕ := C.length / 10 + 1
    let sub := o.filter (fun r => decide (r.getD 2 0 = (ch : ℝ)))
    _ ← colE sub 1
    _ ← colE sub 6
    _ ← colE sub 7
    pure ()
  else
    pure ()

/-- Result of a whole run of `execute`: `none` means an uncaught exception in
the save-and-plot phase. -/
noncomputable def execute (passes : ℕ) (V : List ℚ) (C : List ℕ)
    (ic : ℕ → ℕ → ℕ → ℕ) (o : Oracle) (cut : Option ℕ) : Option Unit :=
  savePhase C (out passes V C ic o cut)

end test13_scan_cv_overnight

namespace save_list

/-- Modelled from the spec: the measurement base class `measurement` with its
`save_list` method is not under `src/`; per the design document the output is
a whitespace-delimited text file written with format `%.5E`, i.e. scientific
notation with five digits after the decimal point of the mantissa.  The
number printed for `x` is therefore `x` rounded to the unit
`10 ^ (log10 |x| - 5)`; `fmtVal` is the exact value denoted by that printed
decimal, which reparsing the file recovers. -/
def fmtVal (x : ℚ) : ℚ :=
  if x = 0 then 0
  else (round (x / (10 : ℚ) ^ (Int.log 10 |x| - 5)) : ℤ) *
    (10 : ℚ) ^ (Int.log 10 |x| - 5)

/-- Modelled from the spec: writing the output table with `save_list` stores
each numeric field as its `%.5E` rendering, one row per line. -/
def saveRows (rows : List (List ℚ)) : List (List ℚ) :=
  rows.map (fun r => r.map fmtVal)

/-- Modelled from the spec: reparsing the flat text file yields exactly the
rational values denoted by the printed decimals. -/
def parseRows (rows : List (List ℚ)) : List (List ℚ) := rows

end save_list

/-- Recognizer for a ramp-to-zero command. -/
def isRampZero : Cmd → Bool
  | .rampVoltage v => v == 0
  | _ => false

/-- Recognizer for the output-off command. -/
def isOff : Cmd → Bool
  | .outputOff => true
  | _ => false

/-- Recognizer for one LCR measurement command. -/
def isMeas : Cmd → Bool
  | .lcrMeasure => true
  | _ => false

/-- The sequence of nominal voltages sent by `ramp_voltage` calls, in order. -/
def rampTargets (cs : List Cmd) : List ℚ :=
  cs.filterMap (fun c => match c with | .rampVoltage v => some v | _ => none)

theorem rampTargets_append (a b : List Cmd) :
    rampTargets (a ++ b) = rampTargets a ++ rampTargets b :=
  List.filterMap_append _ _ _

theorem cmdsOf_take_sublist (l : List Item) (n : ℕ) :
    (cmdsOf (l.take n)).Sublist (cmdsOf l) :=
  (List.take_sublist n l).filterMap _

theorem rowsOf_take_sublist (l : List Item) (n : ℕ) :
    (rowsOf (l.take n)).Sublist (rowsOf l) :=
  (List.take_sublist n l).filterMap _

namespace test09_interpad_cap

theorem rowsOf_freqBlock (o : Oracle) (i j : ℕ) (v f : ℚ) :
    rowsOf (freqBlock o i j v f) = [rowAt o i j v] := rfl

theorem rowsOf_freqLoop_length (o : Oracle) (i : ℕ) (v : ℚ) (j : ℕ) (fs : List ℚ) :
    (rowsOf (freqLoop o i v j fs)).length = fs.length := by
  induction fs generalizing j with
  | nil => rfl
  | cons f fs ih =>
    rw [freqLoop, rowsOf_append, List.length_append, rowsOf_freqBlock, ih]
    simp [Nat.add_comm]

theorem rowsOf_freqLoop_nominal (o : Oracle) (i : ℕ) (v : ℚ) (j : ℕ) (fs : List ℚ) :
    (rowsOf (freqLoop o i v j fs)).map (fun r => r.getD 0 0) =
      List.replicate fs.length ((v : ℚ) : ℝ) := by
  induction fs generalizing j with
  | nil => rfl
  | cons f fs ih =>
    rw [freqLoop, rowsOf_append, List.map_append, rowsOf_freqBlock, ih]
    simp [List.replicate_succ]
    rfl

theorem rowsOf_freqLoop_mem (o : Oracle) (i : ℕ) (v : ℚ) (j : ℕ) (fs : List ℚ)
    (r : List ℝ) (hr : r ∈ rowsOf (freqLoop o i v j fs)) :
    ∃ j', r = rowAt o i j' v := by
  induction fs generalizing j with
  | nil => simp [freqLoop, rowsOf] at hr
  | cons f fs ih =>
    rw [freqLoop, rowsOf_append, rowsOf_freqBlock] at hr
    rcases List.mem_append.mp hr with h | h
    · exact ⟨j, (List.mem_singleton.mp h)⟩
    · exact ih (j + 1) h

theorem rowsOf_freqLoop_const (o : Oracle) (i : ℕ) (v : ℚ) (w : List ℝ)
    (hw : ∀ j', rowAt o i j' v = w) (j : ℕ) (fs : List ℚ) :
    rowsOf (freqLoop o i v j fs) = List.replicate fs.length w := by
  induction fs generalizing j with
  | nil => rfl
  | cons f fs ih =>
    rw [freqLoop, rowsOf_append, rowsOf_freqBlock, ih (j + 1), hw j]
    simp [List.replicate_succ]

theorem rowsOf_sweepLoop_length (o : Oracle) (i : ℕ) (L : List ℚ) :
    (rowsOf (sweepLoop o i L)).length = L.length * freqList.length := by
  induction L generalizing i with
  | nil => rfl
  | cons v vs ih =>
    rw [sweepLoop, rowsOf_append, List.length_append, ih (i + 1)]
    rw [pointItems, rowsOf_append, List.length_append, rowsOf_freqLoop_length]
    simp [rowsOf, Nat.succ_mul, Nat.add_comm]

theorem rowsOf_sweepLoop_nominal (o : Oracle) (i : ℕ) (L : List ℚ) :
    (rowsOf (sweepLoop o i L)).map (fun r => r.getD 0 0) =
      L.flatMap (fun v => List.replicate freqList.length ((v : ℚ) : ℝ)) := by
  induction L generalizing i with
  | nil => rfl
  | cons v vs ih =>
    rw [sweepLoop, rowsOf_append, List.map_append, ih (i + 1)]
    rw [pointItems, rowsOf_append, List.map_append, rowsOf_freqLoop_nominal]
    simp [rowsOf, List.flatMap_cons]

theorem rowsOf_sweepLoop_mem (o : Oracle) (i : ℕ) (L : List ℚ) (r : List ℝ)
    (hr : r ∈ rowsOf (sweepLoop o i L)) :
    ∃ i' j' v, v ∈ L ∧ r = rowAt o i' j' v := by
  induction L generalizing i with
  | nil => simp [sweepLoop, rowsOf] at hr
  | cons v vs ih =>
    rw [sweepLoop, rowsOf_append, pointItems, rowsOf_append] at hr
    rcases List.mem_append.mp hr with h | h
    · rcases List.mem_append.mp h with h' | h'
      · simp [rowsOf] at h'
      · obtain ⟨j', hj⟩ := rowsOf_freqLoop_mem o i v 0 freqList r h'
        exact ⟨i, j', v, List.mem_cons_self v vs, hj⟩
    · obtain ⟨i', j', v', hv, hj⟩ := ih (i + 1) h
      exact ⟨i', j', v', List.mem_cons_of_mem v hv, hj⟩

theorem rowsOf_sweepLoop_const (o : Oracle) (w : ℚ → List ℝ)
    (hw : ∀ i' j' v', rowAt o i' j' v' = w v') (i : ℕ) (L : List ℚ) :
    rowsOf (sweepLoop o i L) =
      L.flatMap (fun v => List.replicate freqList.length (w v)) := by
  induction L generalizing i with
  | nil => rfl
  | cons v vs ih =>
    rw [sweepLoop, rowsOf_append, ih (i + 1)]
    rw [pointItems, rowsOf_append,
      rowsOf_freqLoop_const o i v (w v) (fun j' => hw i j' v) 0 freqList]
    simp [rowsOf, List.flatMap_cons]

theorem countP_freqLoop_zero (p : Cmd → Bool)
    (hSetF : ∀ f, p (Cmd.lcrSetFreq f) = false) (hSleep : ∀ d, p (Cmd.sleep d) = false)
    (hChk : p Cmd.lcrCheckFreq = false) (hCur : p Cmd.readCurrent = false)
    (hVol : p Cmd.readVoltage = false) (hM : p Cmd.lcrMeasure = false)
    (o : Oracle) (i : ℕ) (v : ℚ) (j : ℕ) (fs : List ℚ) :
    (cmdsOf (freqLoop o i v j fs)).countP p = 0 := by
  induction fs generalizing j with
  | nil => rfl
  | cons f fs ih =>
    rw [freqLoop, cmdsOf_append, List.countP_append, ih (j + 1)]
    simp [freqBlock, cmdsOf, samplesPerPoint, List.countP_cons, hSetF, hSleep,
      hChk, hCur, hVol, hM, List.filterMap_replicate]

theorem countP_sweepLoop_rampZero (o : Oracle) (i : ℕ) (L : List ℚ)
    (hL : (0 : ℚ) ∉ L) :
    (cmdsOf (sweepLoop o i L)).countP isRampZero = 0 := by
  induction L generalizing i with
  | nil => rfl
  | cons v vs ih =>
    rw [sweepLoop, cmdsOf_append, List.countP_append,
      ih (i + 1) (fun h => hL (List.mem_cons_of_mem v h))]
    rw [pointItems, cmdsOf_append, List.countP_append,
      countP_freqLoop_zero isRampZero (fun _ => rfl) (fun _ => rfl) rfl rfl rfl rfl]
    have hv : v ≠ 0 := fun h => hL (h ▸ List.mem_cons_self v vs)
    simp [cmdsOf, List.countP_cons, isRampZero, hv]

theorem countP_sweepLoop_off (o : Oracle) (i : ℕ) (L : List ℚ) :
    (cmdsOf (sweepLoop o i L)).countP isOff = 0 := by
  induction L generalizing i with
  | nil => rfl
  | cons v vs ih =>
    rw [sweepLoop, cmdsOf_append, List.countP_append, ih (i + 1)]
    rw [pointItems, cmdsOf_append, List.countP_append,
      countP_freqLoop_zero isOff (fun _ => rfl) (fun _ => rfl) rfl rfl rfl rfl]
    simp [cmdsOf, List.countP_cons, isOff]

theorem rampTargets_freqLoop (o : Oracle) (i : ℕ) (v : ℚ) (j : ℕ) (fs : List ℚ) :
    rampTargets (cmdsOf (freqLoop o i v j fs)) = [] := by
  induction fs generalizing j with
  | nil => rfl
  | cons f fs ih =>
    rw [freqLoop, cmdsOf_append, rampTargets_append, ih (j + 1)]
    simp [freqBlock, cmdsOf, samplesPerPoint, rampTargets, List.filterMap_replicate]

theorem rampTargets_sweepLoop (o : Oracle) (i : ℕ) (L : List ℚ) :
    rampTargets (cmdsOf (sweepLoop o i L)) = L := by
  induction L generalizing i with
  | nil => rfl
  | cons v vs ih =>
    rw [sweepLoop, cmdsOf_append, rampTargets_append, ih (i + 1)]
    rw [pointItems, cmdsOf_append, rampTargets_append, rampTargets_freqLoop]
    simp [cmdsOf, rampTargets]

end test09_interpad_cap

namespace test13_scan_cv_overnight

theorem rowsOf_timeLoop_length (o : Oracle) (p i ci : ℕ) (v : ℚ) (c : ℕ)
    (k m : ℕ) : (rowsOf (timeLoop o p i ci v c k m)).length = m := by
  induction m generalizing k with
  | zero => rfl
  | succ m ih =>
    rw [timeLoop, rowsOf_append, List.length_append, ih (k + 1)]
    simp [timeBlock, rowsOf, Nat.add_comm]

theorem rowsOf_timeLoop_mem (o : Oracle) (p i ci : ℕ) (v : ℚ) (c : ℕ)
    (k m : ℕ) (r : List ℝ) (hr : r ∈ rowsOf (timeLoop o p i ci v c k m)) :
    ∃ k', r = rowAt o p i ci k' v c := by
  induction m generalizing k with
  | zero => simp [timeLoop, rowsOf] at hr
  | succ m ih =>
    rw [timeLoop, rowsOf_append] at hr
    rcases List.mem_append.mp hr with h | h
    · exact ⟨k, by simpa [timeBlock, rowsOf] using h⟩
    · exact ih (k + 1) h

theorem rowsOf_cellLoop_length (o : Oracle) (ic : ℕ → ℕ → ℕ → ℕ) (m : ℕ)
    (hic : ∀ a b c, ic a b c = m) (p i : ℕ) (v : ℚ) (ci : ℕ) (C : List ℕ) :
    (rowsOf (cellLoop o ic p i v ci C)).length = C.length * m := by
  induction C generalizing ci with
  | nil => simp [cellLoop, rowsOf]
  | cons c cs ih =>
    rw [cellLoop]
    rw [show Item.act (Cmd.openChannel c) :: timeLoop o p i ci v c 0 (ic p i ci) ++
        cellLoop o ic p i v (ci + 1) cs =
        [Item.act (Cmd.openChannel c)] ++ timeLoop o p i ci v c 0 (ic p i ci) ++
        cellLoop o ic p i v (ci + 1) cs from rfl]
    rw [rowsOf_append, rowsOf_append, List.length_append, List.length_append,
      rowsOf_timeLoop_length, ih (ci + 1), hic]
    simp [rowsOf, List.length_cons, Nat.succ_mul, Nat.add_comm]

theorem rowsOf_cellLoop_mem (o : Oracle) (ic : ℕ → ℕ → ℕ → ℕ) (p i : ℕ)
    (v : ℚ) (ci : ℕ) (C : List ℕ) (r : List ℝ)
    (hr : r ∈ rowsOf (cellLoop o ic p i v ci C)) :
    ∃ ci' k' c', r = rowAt o p i ci' k' v c' := by
  induction C generalizing ci with
  | nil => simp [cellLoop, rowsOf] at hr
  | cons c cs ih =>
    rw [cellLoop] at hr
    rw [show Item.act (Cmd.openChannel c) :: timeLoop o p i ci v c 0 (ic p i ci) ++
        cellLoop o ic p i v (ci + 1) cs =
        [Item.act (Cmd.openChannel c)] ++ timeLoop o p i ci v c 0 (ic p i ci) ++
        cellLoop o ic p i v (ci + 1) cs from rfl] at hr
    rw [rowsOf_append, rowsOf_append] at hr
    rcases List.mem_append.mp hr with h | h
    · rcases List.mem_append.mp h with h' | h'
      · simp [rowsOf] at h'
      · obtain ⟨k', hk⟩ := rowsOf_timeLoop_mem o p i ci v c 0 (ic p i ci) r h'
        exact ⟨ci, k', c, hk⟩
    · exact ih (ci + 1) h

theorem rowsOf_voltLoop_length (o : Oracle) (ic : ℕ → ℕ → ℕ → ℕ) (m : ℕ)
    (hic : ∀ a b c, ic a b c = m) (C : List ℕ) (p i : ℕ) (V : List ℚ) :
    (rowsOf (voltLoop o ic C p i V)).length = V.length * (C.length * m) := by
  induction V generalizing i with
  | nil => simp [voltLoop, rowsOf]
  | cons v vs ih =>
    rw [voltLoop, rowsOf_append, rowsOf_append, List.length_append,
      List.length_append, rowsOf_cellLoop_length o ic m hic, ih (i + 1)]
    simp [rowsOf, Nat.succ_mul, Nat.add_comm]

theorem rowsOf_voltLoop_mem (o : Oracle) (ic : ℕ → ℕ → ℕ → ℕ) (C : List ℕ)
    (p i : ℕ) (V : List ℚ) (r : List ℝ)
    (hr : r ∈ rowsOf (voltLoop o ic C p i V)) :
    ∃ i' ci' k' v' c', r = rowAt o p i' ci' k' v' c' := by
  induction V generalizing i with
  | nil => simp [voltLoop, rowsOf] at hr
  | cons v vs ih =>
    rw [voltLoop, rowsOf_append, rowsOf_append] at hr
    rcases List.mem_append.mp hr with h | h
    · rcases List.mem_append.mp h with h' | h'
      · simp [rowsOf] at h'
      · obtain ⟨ci', k', c', hk⟩ := rowsOf_cellLoop_mem o ic p i v 0 C r h'
        exact ⟨i, ci', k', v, c', hk⟩
    · exact ih (i + 1) h

theorem rowsOf_passLoop_length (o : Oracle) (ic : ℕ → ℕ → ℕ → ℕ) (m : ℕ)
    (hic : ∀ a b c, ic a b c = m) (V : List ℚ) (C : List ℕ) (p q : ℕ) :
    (rowsOf (passLoop o ic V C p q)).length = q * (V.length * (C.length * m)) := by
  induction q generalizing p with
  | zero => simp [passLoop, rowsOf]
  | succ q ih =>
    rw [passLoop, rowsOf_append, List.length_append,
      rowsOf_voltLoop_length o ic m hic, ih (p + 1)]
    simp [Nat.succ_mul, Nat.add_comm]

theorem rowsOf_passLoop_mem (o : Oracle) (ic : ℕ → ℕ → ℕ → ℕ) (V : List ℚ)
    (C : List ℕ) (p q : ℕ) (r : List ℝ)
    (hr : r ∈ rowsOf (passLoop o ic V C p q)) :
    ∃ p' i' ci' k' v' c', r = rowAt o p' i' ci' k' v' c' := by
  induction q generalizing p with
  | zero => simp [passLoop, rowsOf] at hr
  | succ q ih =>
    rw [passLoop, rowsOf_append] at hr
    rcases List.mem_append.mp hr with h | h
    · obtain ⟨i', ci', k', v', c', hk⟩ := rowsOf_voltLoop_mem o ic C p 0 V r h
      exact ⟨p, i', ci', k', v', c', hk⟩
    · exact ih (p + 1) h

end test13_scan_cv_overnight

namespace test13_scan_cv_overnight

theorem countP_timeLoop_zero (pr : Cmd → Bool) (hVol : pr Cmd.readVoltage = false)
    (hCur : pr Cmd.readCurrent = false) (hM : pr Cmd.lcrMeasure = false)
    (hSleep : ∀ d, pr (Cmd.sleep d) = false) (o : Oracle) (p i ci : ℕ) (v : ℚ)
    (c : ℕ) (k m : ℕ) : (cmdsOf (timeLoop o p i ci v c k m)).countP pr = 0 := by
  induction m generalizing k with
  | zero => rfl
  | succ m ih =>
    rw [timeLoop, cmdsOf_append, List.countP_append, ih (k + 1)]
    simp [timeBlock, cmdsOf, List.countP_cons, hVol, hCur, hM, hSleep]

theorem countP_cellLoop_zero (pr : Cmd → Bool) (hVol : pr Cmd.readVoltage = false)
    (hCur : pr Cmd.readCurrent = false) (hM : pr Cmd.lcrMeasure = false)
    (hSleep : ∀ d, pr (Cmd.sleep d) = false)
    (hOpen : ∀ ch, pr (Cmd.openChannel ch) = false) (o : Oracle)
    (ic : ℕ → ℕ → ℕ → ℕ) (p i : ℕ) (v : ℚ) (ci : ℕ) (C : List ℕ) :
    (cmdsOf (cellLoop o ic p i v ci C)).countP pr = 0 := by
  induction C generalizing ci with
  | nil => rfl
  | cons c cs ih =>
    rw [cellLoop, show Item.act (Cmd.openChannel c) ::
        timeLoop o p i ci v c 0 (ic p i ci) ++ cellLoop o ic p i v (ci + 1) cs =
        [Item.act (Cmd.openChannel c)] ++ timeLoop o p i ci v c 0 (ic p i ci) ++
        cellLoop o ic p i v (ci + 1) cs from rfl,
      cmdsOf_append, cmdsOf_append, List.countP_append, List.countP_append,
      ih (ci + 1), countP_timeLoop_zero pr hVol hCur hM hSleep]
    simp [cmdsOf, List.countP_cons, hOpen]

theorem countP_voltLoop_zero (pr : Cmd → Bool) (hVol : pr Cmd.readVoltage = false)
    (hCur : pr Cmd.readCurrent = false) (hM : pr Cmd.lcrMeasure = false)
    (hSleep : ∀ d, pr (Cmd.sleep d) = false)
    (hOpen : ∀ ch, pr (Cmd.openChannel ch) = false)
    (hRamp : ∀ v', pr (Cmd.rampVoltage v') = false) (o : Oracle)
    (ic : ℕ → ℕ → ℕ → ℕ) (C : List ℕ) (p i : ℕ) (V : List ℚ) :
    (cmdsOf (voltLoop o ic C p i V)).countP pr = 0 := by
  induction V generalizing i with
  | nil => rfl
  | cons v vs ih =>
    rw [voltLoop, cmdsOf_append, cmdsOf_append, List.countP_append,
      List.countP_append, ih (i + 1),
      countP_cellLoop_zero pr hVol hCur hM hSleep hOpen]
    simp [cmdsOf, List.countP_cons, hRamp, hSleep]

theorem countP_voltLoop_rampZero (o : Oracle) (ic : ℕ → ℕ → ℕ → ℕ) (C : List ℕ)
    (p i : ℕ) (V : List ℚ) (hV : (0 : ℚ) ∉ V) :
    (cmdsOf (voltLoop o ic C p i V)).countP isRampZero = 0 := by
  induction V generalizing i with
  | nil => rfl
  | cons v vs ih =>
    rw [voltLoop, cmdsOf_append, cmdsOf_append, List.countP_append,
      List.countP_append, ih (i + 1) (fun h => hV (List.mem_cons_of_mem v h)),
      countP_cellLoop_zero isRampZero rfl rfl rfl (fun _ => rfl) (fun _ => rfl)]
    have hv : v ≠ 0 := fun h => hV (h ▸ List.mem_cons_self v vs)
    simp [cmdsOf, List.countP_cons, isRampZero, hv]

theorem countP_passLoop_rampZero (o : Oracle) (ic : ℕ → ℕ → ℕ → ℕ) (V : List ℚ)
    (C : List ℕ) (p q : ℕ) (hV : (0 : ℚ) ∉ V) :
    (cmdsOf (passLoop o ic V C p q)).countP isRampZero = 0 := by
  induction q generalizing p with
  | zero => rfl
  | succ q ih =>
    rw [passLoop, cmdsOf_append, List.countP_append, ih (p + 1),
      countP_voltLoop_rampZero o ic C p 0 V hV]

theorem countP_passLoop_off (o : Oracle) (ic : ℕ → ℕ → ℕ → ℕ) (V : List ℚ)
    (C : List ℕ) (p q : ℕ) :
    (cmdsOf (passLoop o ic V C p q)).countP isOff = 0 := by
  induction q generalizing p with
  | zero => rfl
  | succ q ih =>
    rw [passLoop, cmdsOf_append, List.countP_append, ih (p + 1),
      countP_voltLoop_zero isOff rfl rfl rfl (fun _ => rfl) (fun _ => rfl)
        (fun _ => rfl) o ic C p 0 V]

theorem countMeas_timeLoop (o : Oracle) (p i ci : ℕ) (v : ℚ) (c : ℕ) (k m : ℕ) :
    (cmdsOf (timeLoop o p i ci v c k m)).countP isMeas =
      (rowsOf (timeLoop o p i ci v c k m)).length := by
  induction m generalizing k with
  | zero => rfl
  | succ m ih =>
    rw [timeLoop, cmdsOf_append, rowsOf_append, List.countP_append,
      List.length_append, ih (k + 1)]
    simp [timeBlock, cmdsOf, rowsOf, List.countP_cons, isMeas]

theorem countMeas_cellLoop (o : Oracle) (ic : ℕ → ℕ → ℕ → ℕ) (p i : ℕ) (v : ℚ)
    (ci : ℕ) (C : List ℕ) :
    (cmdsOf (cellLoop o ic p i v ci C)).countP isMeas =
      (rowsOf (cellLoop o ic p i v ci C)).length := by
  induction C generalizing ci with
  | nil => rfl
  | cons c cs ih =>
    rw [cellLoop, show Item.act (Cmd.openChannel c) ::
        timeLoop o p i ci v c 0 (ic p i ci) ++ cellLoop o ic p i v (ci + 1) cs =
        [Item.act (Cmd.openChannel c)] ++ timeLoop o p i ci v c 0 (ic p i ci) ++
        cellLoop o ic p i v (ci + 1) cs from rfl,
      cmdsOf_append, cmdsOf_append, rowsOf_append, rowsOf_append,
      List.countP_append, List.countP_append, List.length_append,
      List.length_append, ih (ci + 1), countMeas_timeLoop]
    simp [cmdsOf, rowsOf, List.countP_cons, isMeas]

theorem countMeas_voltLoop (o : Oracle) (ic : ℕ → ℕ → ℕ → ℕ) (C : List ℕ)
    (p i : ℕ) (V : List ℚ) :
    (cmdsOf (voltLoop o ic C p i V)).countP isMeas =
      (rowsOf (voltLoop o ic C p i V)).length := by
  induction V generalizing i with
  | nil => rfl
  | cons v vs ih =>
    rw [voltLoop, cmdsOf_append, cmdsOf_append, rowsOf_append, rowsOf_append,
      List.countP_append, List.countP_append, List.length_append,
      List.length_append, ih (i + 1), countMeas_cellLoop]
    simp [cmdsOf, rowsOf, List.countP_cons, isMeas]

theorem countMeas_passLoop (o : Oracle) (ic : ℕ → ℕ → ℕ → ℕ) (V : List ℚ)
    (C : List ℕ) (p q : ℕ) :
    (cmdsOf (passLoop o ic V C p q)).countP isMeas =
      (rowsOf (passLoop o ic V C p q)).length := by
  induction q generalizing p with
  | zero => rfl
  | succ q ih =>
    rw [passLoop, cmdsOf_append, rowsOf_append, List.countP_append,
      List.length_append, ih (p + 1), countMeas_voltLoop]

theorem rampTargets_timeLoop (o : Oracle) (p i ci : ℕ) (v : ℚ) (c : ℕ)
    (k m : ℕ) : rampTargets (cmdsOf (timeLoop o p i ci v c k m)) = [] := by
  induction m generalizing k with
  | zero => rfl
  | succ m ih =>
    rw [timeLoop, cmdsOf_append, rampTargets_append, ih (k + 1)]
    rfl

theorem rampTargets_cellLoop (o : Oracle) (ic : ℕ → ℕ → ℕ → ℕ) (p i : ℕ)
    (v : ℚ) (ci : ℕ) (C : List ℕ) :
    rampTargets (cmdsOf (cellLoop o ic p i v ci C)) = [] := by
  induction C generalizing ci with
  | nil => rfl
  | cons c cs ih =>
    rw [cellLoop, show Item.act (Cmd.openChannel c) ::
        timeLoop o p i ci v c 0 (ic p i ci) ++ cellLoop o ic p i v (ci + 1) cs =
        [Item.act (Cmd.openChannel c)] ++ timeLoop o p i ci v c 0 (ic p i ci) ++
        cellLoop o ic p i v (ci + 1) cs from rfl,
      cmdsOf_append, cmdsOf_append, rampTargets_append, rampTargets_append,
      ih (ci + 1), rampTargets_timeLoop]
    rfl

theorem rampTargets_voltLoop (o : Oracle) (ic : ℕ → ℕ → ℕ → ℕ) (C : List ℕ)
    (p i : ℕ) (V : List ℚ) :
    rampTargets (cmdsOf (voltLoop o ic C p i V)) = V := by
  induction V generalizing i with
  | nil => rfl
  | cons v vs ih =>
    rw [voltLoop, cmdsOf_append, cmdsOf_append, rampTargets_append,
      rampTargets_append, ih (i + 1), rampTargets_cellLoop]
    simp [cmdsOf, rampTargets]

theorem rampTargets_passLoop (o : Oracle) (ic : ℕ → ℕ → ℕ → ℕ) (V : List ℚ)
    (C : List ℕ) (p q : ℕ) :
    rampTargets (cmdsOf (passLoop o ic V C p q)) =
      (List.replicate q V).flatten := by
  induction q generalizing p with
  | zero => rfl
  | succ q ih =>
    rw [passLoop, cmdsOf_append, rampTargets_append, ih (p + 1),
      rampTargets_voltLoop]
    simp [List.replicate_succ]

end test13_scan_cv_overnight

namespace test09_interpad_cap

theorem rowsOf_setupItems : rowsOf setupItems = [] := rfl

theorem rowsOf_handlerItems : rowsOf handlerItems = [] := rfl

theorem rowsOf_teardownItems : rowsOf teardownItems = [] := rfl

theorem cmdsOf_teardownItems :
    cmdsOf teardownItems =
      [Cmd.rampVoltage 0, Cmd.sleep 15, Cmd.outputOff, Cmd.psReset] := rfl

theorem cmdsOf_handlerItems :
    cmdsOf handlerItems = [Cmd.rampVoltage 0, Cmd.logError] := rfl

theorem out_none (L : List ℚ) (o : Oracle) : out L o none = rowsOf (tryItems L o) := by
  simp only [out, runItems, rowsOf_append, rowsOf_setupItems, rowsOf_teardownItems]
  simp

theorem out_some (L : List ℚ) (o : Oracle) (n : ℕ) :
    out L o (some n) = rowsOf ((tryItems L o).take n) := by
  simp only [out, runItems, rowsOf_append, rowsOf_setupItems, rowsOf_handlerItems,
    rowsOf_teardownItems]
  simp

theorem trace_none (L : List ℚ) (o : Oracle) :
    trace L o none =
      cmdsOf setupItems ++ cmdsOf (tryItems L o) ++ cmdsOf teardownItems := by
  simp only [trace, runItems, cmdsOf_append]

theorem trace_some (L : List ℚ) (o : Oracle) (n : ℕ) :
    trace L o (some n) =
      cmdsOf setupItems ++ cmdsOf ((tryItems L o).take n) ++
        cmdsOf handlerItems ++ cmdsOf teardownItems := by
  simp only [trace, runItems, cmdsOf_append]
  simp [List.append_assoc]

end test09_interpad_cap

namespace test13_scan_cv_overnight

theorem rowsOf_setupItems13 : rowsOf setupItems = [] := rfl

theorem rowsOf_handlerItems13 : rowsOf handlerItems = [] := rfl

theorem rowsOf_teardownItems13 : rowsOf teardownItems = [] := rfl

theorem cmdsOf_teardownItems13 :
    cmdsOf teardownItems = [Cmd.rampVoltage 0, Cmd.outputOff, Cmd.psReset] := rfl

theorem cmdsOf_handlerItems13 :
    cmdsOf handlerItems = [Cmd.rampVoltage 0, Cmd.logError] := rfl

theorem out_none13 (passes : ℕ) (V : List ℚ) (C : List ℕ) (ic : ℕ → ℕ → ℕ → ℕ)
    (o : Oracle) : out passes V C ic o none = rowsOf (tryItems passes V C ic o) := by
  simp only [out, runItems, rowsOf_append, rowsOf_setupItems13, rowsOf_teardownItems13]
  simp

theorem out_some13 (passes : ℕ) (V : List ℚ) (C : List ℕ) (ic : ℕ → ℕ → ℕ → ℕ)
    (o : Oracle) (n : ℕ) :
    out passes V C ic o (some n) = rowsOf ((tryItems passes V C ic o).take n) := by
  simp only [out, runItems, rowsOf_append, rowsOf_setupItems13, rowsOf_handlerItems13,
    rowsOf_teardownItems13]
  simp

theorem trace_none13 (passes : ℕ) (V : List ℚ) (C : List ℕ) (ic : ℕ → ℕ → ℕ → ℕ)
    (o : Oracle) :
    trace passes V C ic o none =
      cmdsOf setupItems ++ cmdsOf (tryItems passes V C ic o) ++
        cmdsOf teardownItems := by
  simp only [trace, runItems, cmdsOf_append]

theorem trace_some13 (passes : ℕ) (V : List ℚ) (C : List ℕ) (ic : ℕ → ℕ → ℕ → ℕ)
    (o : Oracle) (n : ℕ) :
    trace passes V C ic o (some n) =
      cmdsOf setupItems ++ cmdsOf ((tryItems passes V C ic o).take n) ++
        cmdsOf handlerItems ++ cmdsOf teardownItems := by
  simp only [trace, runItems, cmdsOf_append]
  simp [List.append_assoc]

end test13_scan_cv_overnight

theorem rampZeroThenOff_of_append09 (Y : List Cmd) :
    rampZeroThenOff (Y ++ cmdsOf test09_interpad_cap.teardownItems) := by
  refine ⟨Y, [Cmd.sleep 15], [Cmd.psReset], ?_⟩
  rw [test09_interpad_cap.cmdsOf_teardownItems]
  simp

theorem rampZeroThenOff_of_append13 (Y : List Cmd) :
    rampZeroThenOff (Y ++ cmdsOf test13_scan_cv_overnight.teardownItems) := by
  refine ⟨Y, [], [Cmd.psReset], ?_⟩
  rw [test13_scan_cv_overnight.cmdsOf_teardownItems13]
  simp

theorem trace09_rampZeroThenOff (L : List ℚ) (o : test09_interpad_cap.Oracle)
    (cut : Option ℕ) : rampZeroThenOff (test09_interpad_cap.trace L o cut) := by
  match cut with
  | none =>
    rw [test09_interpad_cap.trace_none]
    exact rampZeroThenOff_of_append09 _
  | some n =>
    rw [test09_interpad_cap.trace_some]
    exact rampZeroThenOff_of_append09 _

theorem trace13_rampZeroThenOff (passes : ℕ) (V : List ℚ) (C : List ℕ)
    (ic : ℕ → ℕ → ℕ → ℕ) (o : test13_scan_cv_overnight.Oracle) (cut : Option ℕ) :
    rampZeroThenOff (test13_scan_cv_overnight.trace passes V C ic o cut) := by
  match cut with
  | none =>
    rw [test13_scan_cv_overnight.trace_none13]
    exact rampZeroThenOff_of_append13 _
  | some n =>
    rw [test13_scan_cv_overnight.trace_some13]
    exact rampZeroThenOff_of_append13 _

/-- C1: in every run of `execute` of either measurement script, the teardown
sets the power-supply output voltage to zero (`ramp_voltage(0)`) strictly
before disabling the output (`set_output_off`), both when the sweep loop
completes normally (`cut = none`) and when it is interrupted by an operator
cancellation (`cut = some n`). -/
theorem c1_teardown_ramps_zero_before_output_off :
    (∀ (L : List ℚ) (o : test09_interpad_cap.Oracle) (cut : Option ℕ),
      rampZeroThenOff (test09_interpad_cap.trace L o cut)) ∧
    (∀ (passes : ℕ) (V : List ℚ) (C : List ℕ) (ic : ℕ → ℕ → ℕ → ℕ)
      (o : test13_scan_cv_overnight.Oracle) (cut : Option ℕ),
      rampZeroThenOff (test13_scan_cv_overnight.trace passes V C ic o cut)) :=
  ⟨trace09_rampZeroThenOff, trace13_rampZeroThenOff⟩

/-- C7: an operator cancellation raised after `n` steps of the sweep is
caught by the handler around the sweep loop of either script: the command
trace of the cancelled run is the setup commands, the commands of the
executed sweep prefix, then the handler (ramp to zero and an error-severity
log line), then the full teardown — rather than the interrupt propagating
out of `execute`; the rows recorded are exactly those of the executed sweep
prefix, so the run continues into the save phase. -/
theorem c7_cancellation_caught_logged_and_torn_down :
    (∀ (L : List ℚ) (o : test09_interpad_cap.Oracle) (n : ℕ),
      test09_interpad_cap.trace L o (some n) =
        cmdsOf test09_interpad_cap.setupItems ++
          cmdsOf ((test09_interpad_cap.tryItems L o).take n) ++
          [Cmd.rampVoltage 0, Cmd.logError] ++
          [Cmd.rampVoltage 0, Cmd.sleep 15, Cmd.outputOff, Cmd.psReset] ∧
      test09_interpad_cap.out L o (some n) =
        rowsOf ((test09_interpad_cap.tryItems L o).take n)) ∧
    (∀ (passes : ℕ) (V : List ℚ) (C : List ℕ) (ic : ℕ → ℕ → ℕ → ℕ)
      (o : test13_scan_cv_overnight.Oracle) (n : ℕ),
      test13_scan_cv_overnight.trace passes V C ic o (some n) =
        cmdsOf test13_scan_cv_overnight.setupItems ++
          cmdsOf ((test13_scan_cv_overnight.tryItems passes V C ic o).take n) ++
          [Cmd.rampVoltage 0, Cmd.logError] ++
          [Cmd.rampVoltage 0, Cmd.outputOff, Cmd.psReset] ∧
      test13_scan_cv_overnight.out passes V C ic o (some n) =
        rowsOf ((test13_scan_cv_overnight.tryItems passes V C ic o).take n)) := by
  constructor
  · intro L o n
    exact ⟨test09_interpad_cap.trace_some L o n, test09_interpad_cap.out_some L o n⟩
  · intro passes V C ic o n
    exact ⟨test13_scan_cv_overnight.trace_some13 passes V C ic o n,
      test13_scan_cv_overnight.out_some13 passes V C ic o n⟩

namespace test09_interpad_cap

theorem countRampZero_trace_some (L : List ℚ) (o : Oracle) (n : ℕ)
    (hL : (0 : ℚ) ∉ L) : (trace L o (some n)).countP isRampZero = 2 := by
  rw [trace_some, List.countP_append, List.countP_append, List.countP_append]
  have htry : (cmdsOf (tryItems L o)).countP isRampZero = 0 :=
    countP_sweepLoop_rampZero o 0 L hL
  have htake : (cmdsOf ((tryItems L o).take n)).countP isRampZero = 0 :=
    Nat.le_zero.mp
      ((List.Sublist.countP_le _ (cmdsOf_take_sublist (tryItems L o) n)).trans htry.le)
  rw [htake]
  rfl

theorem countRampZero_trace_none (L : List ℚ) (o : Oracle)
    (hL : (0 : ℚ) ∉ L) : (trace L o none).countP isRampZero = 1 := by
  rw [trace_none, List.countP_append, List.countP_append]
  have htry : (cmdsOf (tryItems L o)).countP isRampZero = 0 :=
    countP_sweepLoop_rampZero o 0 L hL
  rw [htry]
  rfl

theorem countOff_trace_some (L : List ℚ) (o : Oracle) (n : ℕ) :
    (trace L o (some n)).countP isOff = 1 := by
  rw [trace_some, List.countP_append, List.countP_append, List.countP_append]
  have htry : (cmdsOf (tryItems L o)).countP isOff = 0 := countP_sweepLoop_off o 0 L
  have htake : (cmdsOf ((tryItems L o).take n)).countP isOff = 0 :=
    Nat.le_zero.mp
      ((List.Sublist.countP_le _ (cmdsOf_take_sublist (tryItems L o) n)).trans htry.le)
  rw [htake]
  rfl

theorem countOff_trace_none (L : List ℚ) (o : Oracle) :
    (trace L o none).countP isOff = 1 := by
  rw [trace_none, List.countP_append, List.countP_append]
  have htry : (cmdsOf (tryItems L o)).countP isOff = 0 := countP_sweepLoop_off o 0 L
  rw [htry]
  rfl

end test09_interpad_cap

namespace test13_scan_cv_overnight

theorem countRampZero_trace_some13 (passes : ℕ) (V : List ℚ) (C : List ℕ)
    (ic : ℕ → ℕ → ℕ → ℕ) (o : Oracle) (n : ℕ) (hV : (0 : ℚ) ∉ V) :
    (trace passes V C ic o (some n)).countP isRampZero = 2 := by
  rw [trace_some13, List.countP_append, List.countP_append, List.countP_append]
  have htry : (cmdsOf (tryItems passes V C ic o)).countP isRampZero = 0 :=
    countP_passLoop_rampZero o ic V C 0 passes hV
  have htake :
      (cmdsOf ((tryItems passes V C ic o).take n)).countP isRampZero = 0 :=
    Nat.le_zero.mp
      ((List.Sublist.countP_le _
        (cmdsOf_take_sublist (tryItems passes V C ic o) n)).trans htry.le)
  rw [htake]
  rfl

theorem countRampZero_trace_none13 (passes : ℕ) (V : List ℚ) (C : List ℕ)
    (ic : ℕ → ℕ → ℕ → ℕ) (o : Oracle) (hV : (0 : ℚ) ∉ V) :
    (trace passes V C ic o none).countP isRampZero = 1 := by
  rw [trace_none13, List.countP_append, List.countP_append]
  have htry : (cmdsOf (tryItems passes V C ic o)).countP isRampZero = 0 :=
    countP_passLoop_rampZero o ic V C 0 passes hV
  rw [htry]
  rfl

theorem countOff_trace_some13 (passes : ℕ) (V : List ℚ) (C : List ℕ)
    (ic : ℕ → ℕ → ℕ → ℕ) (o : Oracle) (n : ℕ) :
    (trace passes V C ic o (some n)).countP isOff = 1 := by
  rw [trace_some13, List.countP_append, List.countP_append, List.countP_append]
  have htry : (cmdsOf (tryItems passes V C ic o)).countP isOff = 0 :=
    countP_passLoop_off o ic V C 0 passes
  have htake : (cmdsOf ((tryItems passes V C ic o).take n)).countP isOff = 0 :=
    Nat.le_zero.mp
      ((List.Sublist.countP_le _
        (cmdsOf_take_sublist (tryItems passes V C ic o) n)).trans htry.le)
  rw [htake]
  rfl

theorem countOff_trace_none13 (passes : ℕ) (V : List ℚ) (C : List ℕ)
    (ic : ℕ → ℕ → ℕ → ℕ) (o : Oracle) :
    (trace passes V C ic o none).countP isOff = 1 := by
  rw [trace_none13, List.countP_append, List.countP_append]
  have htry : (cmdsOf (tryItems passes V C ic o)).countP isOff = 0 :=
    countP_passLoop_off o ic V C 0 passes
  rw [htry]
  rfl

end test13_scan_cv_overnight

/-- An all-zero reading oracle for concrete `test09` runs. -/
noncomputable def zeroOracle09 : test09_interpad_cap.Oracle :=
  ⟨fun _ _ => 0, fun _ _ => 0, fun _ _ => 0, fun _ _ _ => 0, fun _ _ _ => 0⟩

/-- An all-zero reading oracle for concrete `test13` runs. -/
noncomputable def zeroOracle13 : test13_scan_cv_overnight.Oracle :=
  ⟨fun _ _ _ _ => 0, fun _ _ _ _ => 0, fun _ _ _ _ => 0, fun _ _ _ _ => 0,
   fun _ _ _ _ => 0⟩

/-- C3 counterexample: in a `test09` run over the five-point sweep list
`[1, 2, 3, 4, 5]` cancelled in the middle of point 2 (after 150 executed
steps), the ramp-to-zero command is issued twice — once by the interrupt
handler and once by the teardown — not exactly once as claimed; output-off
is indeed issued exactly once. -/
theorem c3_counterexample_ramp_zero_issued_twice :
    (test09_interpad_cap.trace [1, 2, 3, 4, 5] zeroOracle09 (some 150)).countP
        isRampZero = 2 ∧
    ¬((test09_interpad_cap.trace [1, 2, 3, 4, 5] zeroOracle09 (some 150)).countP
        isRampZero = 1) ∧
    (test09_interpad_cap.trace [1, 2, 3, 4, 5] zeroOracle09 (some 150)).countP
        isOff = 1 := by
  refine ⟨by decide, by decide, by decide⟩

/-- C3 amended: a cancellation raised mid-sweep still triggers the teardown
commands: output-off is issued exactly once, while ramp-to-zero is issued
exactly twice (once by the `except` handler, once by the teardown); in a run
that completes normally each is issued exactly once.  This holds for both
scripts whenever the sweep list does not itself contain the voltage 0. -/
theorem c3_amended_teardown_command_counts :
    (∀ (L : List ℚ) (o : test09_interpad_cap.Oracle) (n : ℕ), (0 : ℚ) ∉ L →
      (test09_interpad_cap.trace L o (some n)).countP isRampZero = 2 ∧
      (test09_interpad_cap.trace L o (some n)).countP isOff = 1) ∧
    (∀ (L : List ℚ) (o : test09_interpad_cap.Oracle), (0 : ℚ) ∉ L →
      (test09_interpad_cap.trace L o none).countP isRampZero = 1 ∧
      (test09_interpad_cap.trace L o none).countP isOff = 1) ∧
    (∀ (passes : ℕ) (V : List ℚ) (C : List ℕ) (ic : ℕ → ℕ → ℕ → ℕ)
      (o : test13_scan_cv_overnight.Oracle) (n : ℕ), (0 : ℚ) ∉ V →
      (test13_scan_cv_overnight.trace passes V C ic o (some n)).countP isRampZero = 2 ∧
      (test13_scan_cv_overnight.trace passes V C ic o (some n)).countP isOff = 1) ∧
    (∀ (passes : ℕ) (V : List ℚ) (C : List ℕ) (ic : ℕ → ℕ → ℕ → ℕ)
      (o : test13_scan_cv_overnight.Oracle), (0 : ℚ) ∉ V →
      (test13_scan_cv_overnight.trace passes V C ic o none).countP isRampZero = 1 ∧
      (test13_scan_cv_overnight.trace passes V C ic o none).countP isOff = 1) :=
  ⟨fun L o n hL => ⟨test09_interpad_cap.countRampZero_trace_some L o n hL,
      test09_interpad_cap.countOff_trace_some L o n⟩,
   fun L o hL => ⟨test09_interpad_cap.countRampZero_trace_none L o hL,
      test09_interpad_cap.countOff_trace_none L o⟩,
   fun p V C ic o n hV =>
      ⟨test13_scan_cv_overnight.countRampZero_trace_some13 p V C ic o n hV,
       test13_scan_cv_overnight.countOff_trace_some13 p V C ic o n⟩,
   fun p V C ic o hV =>
      ⟨test13_scan_cv_overnight.countRampZero_trace_none13 p V C ic o hV,
       test13_scan_cv_overnight.countOff_trace_none13 p V C ic o⟩⟩

/-- Witness for the amended C3 theorem at concrete runs of both scripts. -/
theorem c3_amended_teardown_command_counts_witness :
    (0 : ℚ) ∉ ([1, 2, 3, 4, 5] : List ℚ) ∧
    (test09_interpad_cap.trace [1, 2, 3, 4, 5] zeroOracle09 (some 150)).countP
      isRampZero = 2 ∧
    (test13_scan_cv_overnight.trace 1 [7] [186] (fun _ _ _ => 1) zeroOracle13
      (some 3)).countP isRampZero = 2 :=
  ⟨by decide,
   (c3_amended_teardown_command_counts.1 [1, 2, 3, 4, 5] zeroOracle09 150
      (by decide)).1,
   (c3_amended_teardown_command_counts.2.2.1 1 [7] [186] (fun _ _ _ => 1)
      zeroOracle13 3 (by decide)).1⟩

/-- C8 counterexample: the overnight repeat loop of `test13` re-applies the
voltage list on every pass, so with two passes of the clock window the single
sweep element `7` is applied twice in one run — not exactly once as claimed. -/
theorem c8_counterexample_volt_list_reapplied_each_pass :
    (rampTargets (cmdsOf (test13_scan_cv_overnight.tryItems 2 [7] [186]
      (fun _ _ _ => 1) zeroOracle13))).count (7 : ℚ) = 2 ∧
    ¬((rampTargets (cmdsOf (test13_scan_cv_overnight.tryItems 2 [7] [186]
      (fun _ _ _ => 1) zeroOracle13))).count (7 : ℚ) = 1) := by
  refine ⟨by decide, by decide⟩

/-- C8 amended: the sweep parameter list is applied in order, once per sweep
pass, and is never mutated (the loops only read it): in `test09` the ramp
commands of the sweep are exactly the sweep list, once per run; in `test13`
the ramp commands are the voltage list repeated once per pass of the
overnight loop (and the cell list is likewise re-iterated per voltage). -/
theorem c8_amended_sweep_list_applied_in_order_once_per_pass :
    (∀ (L : List ℚ) (o : test09_interpad_cap.Oracle),
      rampTargets (cmdsOf (test09_interpad_cap.tryItems L o)) = L) ∧
    (∀ (passes : ℕ) (V : List ℚ) (C : List ℕ) (ic : ℕ → ℕ → ℕ → ℕ)
      (o : test13_scan_cv_overnight.Oracle),
      rampTargets (cmdsOf (test13_scan_cv_overnight.tryItems passes V C ic o)) =
        (List.replicate passes V).flatten) :=
  ⟨fun L o => test09_interpad_cap.rampTargets_sweepLoop o 0 L,
   fun p V C ic o => test13_scan_cv_overnight.rampTargets_passLoop o ic V C 0 p⟩

/-- C2 counterexample: in a `test09` run over the one-point sweep list `[1]`
the sweep loop appends 10 aggregated rows — one per nominal LCR frequency —
not `len(L) * samplesPerPoint = 5`: the samples-per-point repeat count (the
`range(5)` loop) is aggregated inside each row, it does not multiply the row
count. -/
theorem c2_counterexample_row_count_is_frequencies_not_samples :
    (test09_interpad_cap.out [1] zeroOracle09 none).length = 10 ∧
    ¬((test09_interpad_cap.out [1] zeroOracle09 none).length =
      ([1] : List ℚ).length * test09_interpad_cap.samplesPerPoint) := by
  refine ⟨by decide, by decide⟩

/-- C2 amended: an uninterrupted sweep appends exactly `len(L)` times the
number of per-point sub-measurements aggregated rows, in sweep order: in
`test09` that is `len(L) * 10` rows (one per nominal LCR frequency, each row
aggregating the 5 repeats), with the nominal-voltage column listing each
sweep voltage 10 times in the order of `L`; in `test13` with `passes` clock
passes and `m` time-samples per channel it is `passes * len(V) * len(C) * m`
raw rows. -/
theorem c2_amended_row_count_and_sweep_order :
    (∀ (L : List ℚ) (o : test09_interpad_cap.Oracle),
      (test09_interpad_cap.out L o none).length =
        L.length * test09_interpad_cap.freqList.length ∧
      (test09_interpad_cap.out L o none).map (fun r => r.getD 0 0) =
        L.flatMap (fun v =>
          List.replicate test09_interpad_cap.freqList.length ((v : ℚ) : ℝ))) ∧
    (∀ (passes : ℕ) (V : List ℚ) (C : List ℕ) (m : ℕ)
      (o : test13_scan_cv_overnight.Oracle),
      (test13_scan_cv_overnight.out passes V C (fun _ _ _ => m) o none).length =
        passes * (V.length * (C.length * m))) := by
  constructor
  · intro L o
    rw [test09_interpad_cap.out_none]
    exact ⟨test09_interpad_cap.rowsOf_sweepLoop_length o 0 L,
      test09_interpad_cap.rowsOf_sweepLoop_nominal o 0 L⟩
  · intro passes V C m o
    rw [test13_scan_cv_overnight.out_none13]
    exact test13_scan_cv_overnight.rowsOf_passLoop_length o (fun _ _ _ => m) m
      (fun _ _ _ => rfl) V C 0 passes

/-- C9: every row appended to the output list during any run of either
script — complete or cancelled at any point — has exactly 8 numeric fields. -/
theorem c9_every_row_has_exactly_eight_fields :
    (∀ (L : List ℚ) (o : test09_interpad_cap.Oracle) (cut : Option ℕ)
      (r : List ℝ), r ∈ test09_interpad_cap.out L o cut → r.length = 8) ∧
    (∀ (passes : ℕ) (V : List ℚ) (C : List ℕ) (ic : ℕ → ℕ → ℕ → ℕ)
      (o : test13_scan_cv_overnight.Oracle) (cut : Option ℕ) (r : List ℝ),
      r ∈ test13_scan_cv_overnight.out passes V C ic o cut → r.length = 8) := by
  constructor
  · intro L o cut r hr
    have hr' : r ∈ rowsOf (test09_interpad_cap.tryItems L o) := by
      match cut with
      | none => rw [test09_interpad_cap.out_none] at hr; exact hr
      | some n =>
        rw [test09_interpad_cap.out_some] at hr
        exact (rowsOf_take_sublist _ n).mem hr
    obtain ⟨i', j', v, _, hrow⟩ :=
      test09_interpad_cap.rowsOf_sweepLoop_mem o 0 L r hr'
    rw [hrow]
    rfl
  · intro passes V C ic o cut r hr
    have hr' : r ∈ rowsOf (test13_scan_cv_overnight.tryItems passes V C ic o) := by
      match cut with
      | none => rw [test13_scan_cv_overnight.out_none13] at hr; exact hr
      | some n =>
        rw [test13_scan_cv_overnight.out_some13] at hr
        exact (rowsOf_take_sublist _ n).mem hr
    obtain ⟨p', i', ci', k', v', c', hrow⟩ :=
      test13_scan_cv_overnight.rowsOf_passLoop_mem o ic V C 0 passes r hr'
    rw [hrow]
    rfl

/-- Witness for C9 at a concrete `test09` run: the first recorded row of the
run over `[1]` has width 8. -/
theorem c9_every_row_has_exactly_eight_fields_witness :
    ∃ r ∈ test09_interpad_cap.out [1] zeroOracle09 none, r.length = 8 := by
  have hne : test09_interpad_cap.out [1] zeroOracle09 none ≠ [] := by
    have hlen : (test09_interpad_cap.out [1] zeroOracle09 none).length = 10 := by
      decide
    intro h
    rw [h] at hlen
    exact absurd hlen (by decide)
  exact ⟨_, List.head_mem hne,
    c9_every_row_has_exactly_eight_fields.1 [1] zeroOracle09 none _
      (List.head_mem hne)⟩

/-- C10: if a run of either script records zero rows (empty sweep list or an
immediate cancellation), the save-and-plot phase does not complete normally:
column-indexing the empty output array fails, after the teardown (ramp to
zero before output-off) has already run; so `execute` completes without error
only when at least one row was recorded. -/
theorem c10_empty_output_fails_save_phase_after_teardown :
    (∀ (L : List ℚ) (o : test09_interpad_cap.Oracle) (cut : Option ℕ),
      test09_interpad_cap.out L o cut = [] →
      test09_interpad_cap.execute L o cut = none ∧
      rampZeroThenOff (test09_interpad_cap.trace L o cut)) ∧
    (∀ (passes : ℕ) (V : List ℚ) (C : List ℕ) (ic : ℕ → ℕ → ℕ → ℕ)
      (o : test13_scan_cv_overnight.Oracle) (cut : Option ℕ),
      test13_scan_cv_overnight.out passes V C ic o cut = [] →
      test13_scan_cv_overnight.execute passes V C ic o cut = none ∧
      rampZeroThenOff (test13_scan_cv_overnight.trace passes V C ic o cut)) := by
  constructor
  · intro L o cut hout
    refine ⟨?_, trace09_rampZeroThenOff L o cut⟩
    rw [test09_interpad_cap.execute, hout]
    rfl
  · intro passes V C ic o cut hout
    refine ⟨?_, trace13_rampZeroThenOff passes V C ic o cut⟩
    rw [test13_scan_cv_overnight.execute, hout]
    rfl

/-- Witness for C10: a `test09` run over the empty sweep list and a `test13`
run over an empty voltage list record no rows and error out in the save
phase. -/
theorem c10_empty_output_fails_save_phase_after_teardown_witness :
    test09_interpad_cap.execute [] zeroOracle09 none = none ∧
    test13_scan_cv_overnight.execute 1 [] [186] (fun _ _ _ => 1) zeroOracle13
      none = none :=
  ⟨(c10_empty_output_fails_save_phase_after_teardown.1 [] zeroOracle09 none rfl).1,
   (c10_empty_output_fails_save_phase_after_teardown.2 1 [] [186] (fun _ _ _ => 1)
      zeroOracle13 none rfl).1⟩

/-- C4 counterexample: `test13` does not aggregate at all — in a run of one
pass over one voltage and one cell with one time sample, exactly one LCR
measurement command is issued and exactly one row is recorded, i.e. one raw
sample per recorded point, not the claimed fixed 5 repeats with mean and
standard deviation. -/
theorem c4_counterexample_test13_records_single_raw_samples :
    (cmdsOf (test13_scan_cv_overnight.tryItems 1 [1] [186] (fun _ _ _ => 1)
      zeroOracle13)).countP isMeas = 1 ∧
    (rowsOf (test13_scan_cv_overnight.tryItems 1 [1] [186] (fun _ _ _ => 1)
      zeroOracle13)).length = 1 ∧
    ¬((cmdsOf (test13_scan_cv_overnight.tryItems 1 [1] [186] (fun _ _ _ => 1)
        zeroOracle13)).countP isMeas =
      test09_interpad_cap.samplesPerPoint *
        (rowsOf (test13_scan_cv_overnight.tryItems 1 [1] [186] (fun _ _ _ => 1)
          zeroOracle13)).length) := by
  refine ⟨by decide, by decide, by decide⟩

/-- C4 amended: in `test09` every recorded row aggregates a fixed sample set
of 5 repeats per reading: the recorded values are the arithmetic means of the
5 `cp` and `rp` samples taken at that point and the recorded errors are their
population standard deviations (`ddof = 0`, no outlier rejection); `test13`
performs no aggregation — it issues exactly one LCR measurement per recorded
row. -/
theorem c4_amended_mean_and_population_std_of_five_repeats :
    (∀ (L : List ℚ) (o : test09_interpad_cap.Oracle) (cut : Option ℕ)
      (r : List ℝ), r ∈ test09_interpad_cap.out L o cut →
      ∃ (i j : ℕ) (v : ℚ),
        (test09_interpad_cap.cpSamples o i j).length = 5 ∧
        (test09_interpad_cap.rpSamples o i j).length = 5 ∧
        r = [((v : ℚ) : ℝ), o.vol i j, o.freqM i j,
             arithmeticMean (test09_interpad_cap.cpSamples o i j),
             populationStdDev (test09_interpad_cap.cpSamples o i j),
             arithmeticMean (test09_interpad_cap.rpSamples o i j),
             populationStdDev (test09_interpad_cap.rpSamples o i j),
             o.cur i j]) ∧
    (∀ (passes : ℕ) (V : List ℚ) (C : List ℕ) (ic : ℕ → ℕ → ℕ → ℕ)
      (o : test13_scan_cv_overnight.Oracle),
      (cmdsOf (test13_scan_cv_overnight.tryItems passes V C ic o)).countP isMeas =
        (rowsOf (test13_scan_cv_overnight.tryItems passes V C ic o)).length) := by
  constructor
  · intro L o cut r hr
    have hr' : r ∈ rowsOf (test09_interpad_cap.tryItems L o) := by
      match cut with
      | none => rw [test09_interpad_cap.out_none] at hr; exact hr
      | some n =>
        rw [test09_interpad_cap.out_some] at hr
        exact (rowsOf_take_sublist _ n).mem hr
    obtain ⟨i', j', v, _, hrow⟩ :=
      test09_interpad_cap.rowsOf_sweepLoop_mem o 0 L r hr'
    refine ⟨i', j', v, rfl, rfl, ?_⟩
    rw [hrow]
    simp [test09_interpad_cap.rowAt, npMean_eq_arithmeticMean,
      npStd_eq_populationStdDev]
  · intro passes V C ic o
    exact test13_scan_cv_overnight.countMeas_passLoop o ic V C 0 passes

/-- Witness for the amended C4 theorem: the first row of a concrete `test09`
run is the mean/population-standard-deviation aggregation of its 5-sample
sets. -/
theorem c4_amended_mean_and_population_std_witness :
    ∃ r ∈ test09_interpad_cap.out [1] zeroOracle09 none,
      ∃ (i j : ℕ) (v : ℚ),
        (test09_interpad_cap.cpSamples zeroOracle09 i j).length = 5 ∧
        (test09_interpad_cap.rpSamples zeroOracle09 i j).length = 5 ∧
        r = [((v : ℚ) : ℝ), zeroOracle09.vol i j, zeroOracle09.freqM i j,
             arithmeticMean (test09_interpad_cap.cpSamples zeroOracle09 i j),
             populationStdDev (test09_interpad_cap.cpSamples zeroOracle09 i j),
             arithmeticMean (test09_interpad_cap.rpSamples zeroOracle09 i j),
             populationStdDev (test09_interpad_cap.rpSamples zeroOracle09 i j),
             zeroOracle09.cur i j] := by
  have hne : test09_interpad_cap.out [1] zeroOracle09 none ≠ [] := by
    have hlen : (test09_interpad_cap.out [1] zeroOracle09 none).length = 10 := by
      decide
    intro h
    rw [h] at hlen
    exact absurd hlen (by decide)
  exact ⟨_, List.head_mem hne,
    c4_amended_mean_and_population_std_of_five_repeats.1 [1] zeroOracle09 none _
      (List.head_mem hne)⟩

/-- The constant-1.0 reading oracle of the C6 scenario ("constant mock
readings of 1.0"). -/
noncomputable def onesOracle09 : test09_interpad_cap.Oracle :=
  ⟨fun _ _ => 1, fun _ _ => 1, fun _ _ => 1, fun _ _ _ => 1, fun _ _ _ => 1⟩

theorem rowAt_onesOracle09 (i j : ℕ) (v : ℚ) :
    test09_interpad_cap.rowAt onesOracle09 i j v =
      [((v : ℚ) : ℝ), 1, 1, 1, 0, 1, 0, 1] := by
  have hcp : test09_interpad_cap.cpSamples onesOracle09 i j =
      List.replicate 5 (1 : ℝ) := by
    simp [test09_interpad_cap.cpSamples, onesOracle09,
      test09_interpad_cap.samplesPerPoint, List.map_const']
  have hrp : test09_interpad_cap.rpSamples onesOracle09 i j =
      List.replicate 5 (1 : ℝ) := by
    simp [test09_interpad_cap.rpSamples, onesOracle09,
      test09_interpad_cap.samplesPerPoint, List.map_const']
  rw [test09_interpad_cap.rowAt, hcp, hrp, npMean_replicate 5 (by norm_num) 1,
    npStd_replicate 5 (by norm_num) 1]
  rfl

/-- C6 counterexample: running the `test09` sweep over `[0, 10, -10]` with
constant mock readings of 1.0 produces 30 rows — 10 frequency rows per sweep
voltage, each aggregating the code's fixed 5 samples — not 3 rows: the
scenario's premise of one sample (and one row) per point cannot be realised
by the code, whose repeat count and frequency list are hardcoded. -/
theorem c6_counterexample_thirty_rows_not_three :
    (test09_interpad_cap.out [0, 10, -10] onesOracle09 none).length = 30 ∧
    ¬((test09_interpad_cap.out [0, 10, -10] onesOracle09 none).length = 3) := by
  refine ⟨by decide, by decide⟩

/-- C6 amended: running the `test09` sweep over `[0, 10, -10]` with constant
mock readings of 1.0 produces 30 rows (10 per sweep voltage, one per nominal
LCR frequency), both error columns (`cp_err`, `rp_err`) are identically zero,
and the nominal-voltage column is `0, 10, -10` in sweep order, each value
repeated 10 times. -/
theorem c6_amended_constant_readings_scenario :
    (test09_interpad_cap.out [0, 10, -10] onesOracle09 none).length = 30 ∧
    (test09_interpad_cap.out [0, 10, -10] onesOracle09 none).map
      (fun r => r.getD 4 0) = List.replicate 30 0 ∧
    (test09_interpad_cap.out [0, 10, -10] onesOracle09 none).map
      (fun r => r.getD 6 0) = List.replicate 30 0 ∧
    (test09_interpad_cap.out [0, 10, -10] onesOracle09 none).map
      (fun r => r.getD 0 0) =
      ([0, 10, -10] : List ℚ).flatMap
        (fun v => List.replicate 10 ((v : ℚ) : ℝ)) := by
  have hout : test09_interpad_cap.out [0, 10, -10] onesOracle09 none =
      ([0, 10, -10] : List ℚ).flatMap
        (fun v => List.replicate test09_interpad_cap.freqList.length
          [((v : ℚ) : ℝ), 1, 1, 1, 0, 1, 0, 1]) := by
    rw [test09_interpad_cap.out_none]
    exact test09_interpad_cap.rowsOf_sweepLoop_const onesOracle09
      (fun v => [((v : ℚ) : ℝ), 1, 1, 1, 0, 1, 0, 1])
      (fun i j v => rowAt_onesOracle09 i j v) 0 [0, 10, -10]
  rw [hout]
  refine ⟨?_, ?_, ?_, ?_⟩
  · simp [test09_interpad_cap.freqList]
  · rw [show (30 : ℕ) = 10 + (10 + 10) by norm_num, List.replicate_add,
      List.replicate_add]
    simp [test09_interpad_cap.freqList, List.flatMap_cons, List.map_append,
      List.map_replicate]
  · rw [show (30 : ℕ) = 10 + (10 + 10) by norm_num, List.replicate_add,
      List.replicate_add]
    simp [test09_interpad_cap.freqList, List.flatMap_cons, List.map_append,
      List.map_replicate]
  · simp [test09_interpad_cap.freqList, List.flatMap_cons, List.map_append,
      List.map_replicate]

namespace save_list

theorem fmtVal_zero : fmtVal 0 = 0 := rfl

theorem fmtVal_close (x : ℚ) (hx : x ≠ 0) :
    |fmtVal x - x| ≤ (10 : ℚ) ^ (Int.log 10 |x| - 5) / 2 := by
  rw [fmtVal, if_neg hx]
  have hupos : (0 : ℚ) < (10 : ℚ) ^ (Int.log 10 |x| - 5) :=
    zpow_pos (by norm_num) _
  set u : ℚ := (10 : ℚ) ^ (Int.log 10 |x| - 5) with hu
  have hsplit : ((round (x / u) : ℤ) : ℚ) * u - x =
      (((round (x / u) : ℤ) : ℚ) - x / u) * u := by
    field_simp
  rw [hsplit, abs_mul, abs_of_pos hupos]
  have hr : |((round (x / u) : ℤ) : ℚ) - x / u| ≤ 1 / 2 := by
    rw [abs_sub_comm]
    exact abs_sub_round (x / u)
  calc |((round (x / u) : ℤ) : ℚ) - x / u| * u ≤ 1 / 2 * u :=
        mul_le_mul_of_nonneg_right hr hupos.le
    _ = u / 2 := by ring

theorem fmtVal_within_five_sig_digits (x : ℚ) :
    (10 : ℚ) ^ (Int.log 10 |x| - 5) / 2 ≤ (10 : ℚ) ^ (Int.log 10 |x| - 4) / 2 := by
  have h : (10 : ℚ) ^ (Int.log 10 |x| - 5) ≤ (10 : ℚ) ^ (Int.log 10 |x| - 4) :=
    zpow_le_zpow_right₀ (by norm_num) (by omega)
  linarith

end save_list

/-- C5: writing an output table with the `%.5E` save format and reparsing the
text file yields rows of the same shape whose every value is the original
rounded at the format's unit `10 ^ (log10 |x| - 5)`; the reparsed value
differs from the original by at most half that unit, which is within the
half-unit tolerance of rounding to 5 significant digits
(`10 ^ (log10 |x| - 4) / 2`); zero round-trips exactly. -/
theorem c5_save_format_roundtrip_within_precision :
    ∀ rows : List (List ℚ),
      save_list.parseRows (save_list.saveRows rows) =
        rows.map (fun r => r.map save_list.fmtVal) ∧
      (save_list.saveRows rows).map List.length = rows.map List.length ∧
      save_list.fmtVal 0 = 0 ∧
      (∀ x : ℚ, x ≠ 0 →
        |save_list.fmtVal x - x| ≤ (10 : ℚ) ^ (Int.log 10 |x| - 5) / 2 ∧
        (10 : ℚ) ^ (Int.log 10 |x| - 5) / 2 ≤
          (10 : ℚ) ^ (Int.log 10 |x| - 4) / 2) := by
  intro rows
  refine ⟨rfl, ?_, rfl, fun x hx =>
    ⟨save_list.fmtVal_close x hx, save_list.fmtVal_within_five_sig_digits x⟩⟩
  simp [save_list.saveRows, List.map_map, Function.comp]

/-- Witness for C5 at the one-row table `[[7]]` and the nonzero value `7`. -/
theorem c5_save_format_roundtrip_within_precision_witness :
    (7 : ℚ) ≠ 0 ∧
    save_list.parseRows (save_list.saveRows [[7]]) =
      [[save_list.fmtVal 7]] ∧
    |save_list.fmtVal 7 - 7| ≤ (10 : ℚ) ^ (Int.log 10 |(7 : ℚ)| - 5) / 2 :=
  ⟨by norm_num,
   (c5_save_format_roundtrip_within_precision [[7]]).1,
   ((c5_save_format_roundtrip_within_precision [[7]]).2.2.2 7 (by norm_num)).1⟩
